import Mathlib

/-!
Verification of `threading.h`.

A shallow embedding of the scoped lock guard `ThreadSafe`, of the
`concurrency_tracker` and of the affinity `pinning_observer`, followed by the
properties established about them.

Conventions of the embedding:

* a C++ `int` is an `Int`; arithmetic fed by an unbounded input
  (`pinning_step`, `thread_index`, `num_threads`) is wrapped to 32 bits by
  `int32`;
* a `cpu_set_t` is the list of its bits, bit `i` being CPU `i`; the `size`
  argument of the `CPU_*_S` helpers is a number of bytes, as in `<sched.h>`;
* the operating system is a parameter (`Env`).
-/

namespace Threading

/-! ## Machine integers -/

/-- Two's complement wrap of an integer to the range of a 32-bit `int`. -/
def int32 (x : Int) : Int := (x + 2147483648) % 4294967296 - 2147483648

/-- Largest value of a 32-bit `int`. -/
def INT_MAX : Int := 2147483647

/-! ## Striping loop of `pinning_observer::on_scheduler_entry` (lines 143-149) -/

/-- One pass through the body of the loop `for ( int i = 0, offset = 0; i<thr_idx; ++i )`:
`cpu_idx += pinning_step; if ( cpu_idx >= num_cpus ) cpu_idx = ++offset;`.
The state is the pair `(cpu_idx, offset)`. -/
def stripe_body (num_cpus pinning_step : Int) (st : Int × Int) : Int × Int :=
  let cpu_idx := int32 (st.1 + pinning_step)
  if cpu_idx ≥ num_cpus then
    let offset := int32 (st.2 + 1)
    (offset, offset)
  else
    (cpu_idx, st.2)

/-- State `(cpu_idx, offset)` after `k` passes through the loop body. -/
def stripe_iter (num_cpus pinning_step : Int) : Nat → Int × Int → Int × Int
  | 0, st => st
  | k + 1, st => stripe_body num_cpus pinning_step (stripe_iter num_cpus pinning_step k st)

/-- The striping loop: `cpu_idx` starts at 0, `offset` at 0, and the body runs
once for each `i` with `0 ≤ i < thr_idx`, that is `thr_idx.toNat` times (none
when `thr_idx ≤ 0`). The value is the final `cpu_idx`. -/
def stripe (num_cpus pinning_step thr_idx : Int) : Int :=
  (stripe_iter num_cpus pinning_step thr_idx.toNat (0, 0)).1

/-! ## CPU sets (`<sched.h>`)

The dynamically sized CPU-set helpers of glibc. A set is the list of its
bits; `size` is the size of the set in bytes, so that the helpers see the
first `8 * size` bits only. -/

/-- A CPU set: bit `i` says whether CPU `i` belongs to the set. -/
abbrev cpu_set_t := List Bool

/-- `CPU_ALLOC_SIZE(count)`: bytes of a set able to hold CPUs `0 .. count-1`,
a whole number of 64-bit words. -/
def CPU_ALLOC_SIZE (count : Int) : Nat := (count.toNat + 63) / 64 * 8

/-- `CPU_ZERO_S(size, set)`: clears the first `size` bytes of the set. -/
def CPU_ZERO_S (size : Nat) (set : cpu_set_t) : cpu_set_t :=
  List.replicate (8 * size) false ++ set.drop (8 * size)

/-- `CPU_SET_S(cpu, size, set)`: sets bit `cpu` when it lies within the first
`size` bytes, and does nothing otherwise (`cpu` is converted to `size_t`, so
that a negative `cpu` is out of range). -/
def CPU_SET_S (cpu : Int) (size : Nat) (set : cpu_set_t) : cpu_set_t :=
  if 0 ≤ cpu ∧ cpu.toNat / 8 < size then set.set cpu.toNat true else set

/-- `CPU_ISSET_S(cpu, size, set)`: bit `cpu` when it lies within the first
`size` bytes, and false otherwise. -/
def CPU_ISSET_S (cpu : Int) (size : Nat) (set : cpu_set_t) : Bool :=
  if 0 ≤ cpu ∧ cpu.toNat / 8 < size then set.getD cpu.toNat false else false

/-- `CPU_COUNT_S(size, set)`: number of set bits within the first `size` bytes. -/
def CPU_COUNT_S (size : Nat) (set : cpu_set_t) : Int :=
  ((set.take (8 * size)).count true : Nat)

/-- `sizeof(cpu_set_t)` in glibc: 1024 bits. -/
def sizeof_cpu_set_t : Int := 128

/-- Bits of a `char`. -/
def CHAR_BIT : Int := 8

/-- The `errno` value `EINVAL`. -/
def EINVAL : Int := 22

/-! ## Operating system -/

/-- What the operating system answers to the calls of `pinning_observer`.

* `alloc_ok ncpus`: whether `CPU_ALLOC( ncpus )` of the constructor returns memory;
* `fresh i`: bit `i` of freshly allocated (uninitialised) memory;
* `sched_getaffinity ncpus size`: answer to the call made by the constructor
  in the iteration for `ncpus`, either the `errno` of a failed call or the
  bits of the process affinity mask written to the buffer;
* `current_slot`: value of `tbb::task_arena::current_slot()`;
* `sched_setaffinity size target`: value returned by the call. -/
structure Env where
  alloc_ok : Int → Bool
  fresh : Nat → Bool
  sched_getaffinity : Int → Nat → Except Int (List Bool)
  current_slot : Int
  sched_setaffinity : Nat → cpu_set_t → Int

/-- Memory returned by a successful `CPU_ALLOC( ncpus )`: `CPU_ALLOC_SIZE( ncpus )`
bytes of unspecified content. -/
def CPU_ALLOC_mem (env : Env) (ncpus : Int) : cpu_set_t :=
  (List.range (8 * CPU_ALLOC_SIZE ncpus)).map env.fresh

/-- `CPU_ALLOC( ncpus )` with its result checked, as in the constructor:
`none` is the null pointer. -/
def CPU_ALLOC (env : Env) (ncpus : Int) : Option cpu_set_t :=
  if env.alloc_ok ncpus then some (CPU_ALLOC_mem env ncpus) else none

/-- Effect of a successful `sched_getaffinity( 0, size, mask )` on the buffer:
the first `size` bytes hold the affinity bits, zero where the kernel wrote
nothing. -/
def getaffinity_write (size : Nat) (bits : List Bool) (mask : cpu_set_t) : cpu_set_t :=
  (List.range (8 * size)).map (fun i => bits.getD i false) ++ mask.drop (8 * size)

/-! ## `pinning_observer` -/

/-- Preprocessor switches read by `pinning_observer::on_scheduler_entry`
(`MIC` stands for `__MIC__`). -/
structure PinConfig where
  USE_TASK_ARENA_CURRENT_SLOT : Bool
  MIC : Bool
deriving DecidableEq, Repr

/-- Fields of `pinning_observer`; `mask = none` is the null pointer. -/
structure pinning_observer where
  mask : Option cpu_set_t
  ncpus : Int
  pinning_step : Int
  thread_index : Int
deriving DecidableEq, Repr

/-- The `for` loop of the constructor (lines 109-120), entered with the
current `ncpus` and `mask`; the value is `(mask, ncpus)` at loop exit, or
`none` if the loop is still running after `fuel` iterations. -/
def capture_loop (env : Env) : Nat → Int → Option cpu_set_t → Option (Option cpu_set_t × Int)
  | 0, _, _ => none
  | fuel + 1, ncpus, mask =>
    if ncpus < 16 * 1024 then
      match CPU_ALLOC env ncpus with
      | none => some (none, ncpus)
      | some mem =>
        let size := CPU_ALLOC_SIZE ncpus
        let zeroed := CPU_ZERO_S size mem
        match env.sched_getaffinity ncpus size with
        | .ok bits => some (some (getaffinity_write size bits zeroed), ncpus)
        | .error errno =>
          if errno ≠ EINVAL then some (none, ncpus)
          else capture_loop env fuel (int32 (2 * ncpus)) none
    else some (mask, ncpus)

/-- Iterations allowed to the loop of the constructor. -/
def capture_fuel : Nat := 16

/-- Text printed when no mask could be obtained. -/
def capture_warning : String :=
  "Warning: Failed to obtain process affinity mask. Thread affinitization is disabled."

/-- The constructor `pinning_observer( int pinning_step )`: the observer built
and the lines printed to `std::cout`; `none` if the loop did not end within
`capture_fuel` iterations. The loop starts at
`ncpus = sizeof(cpu_set_t)/CHAR_BIT`, whose first iteration assigns `mask`. -/
def pinning_observer.ctor (env : Env) (pinning_step : Int) :
    Option (pinning_observer × List String) :=
  match capture_loop env capture_fuel (sizeof_cpu_set_t / CHAR_BIT) none with
  | none => none
  | some (mask, ncpus) =>
    some (⟨mask, ncpus, pinning_step, 0⟩, if mask.isNone then [capture_warning] else [])

/-- The loop `while ( cpu_idx >= 0 ) { if ( CPU_ISSET_S( ++mapped_idx, size, mask ) ) --cpu_idx; }`
(lines 153-156), entered with the current `cpu_idx` and `mapped_idx`; the value
is the final `mapped_idx`, or `none` if the loop is still running after `fuel`
iterations. `mapped_idx` runs from -1 up to the size of the mask and `cpu_idx`
down to -1, far from the limits of `int`. -/
def scan_loop (size : Nat) (mask : cpu_set_t) : Nat → Int → Int → Option Int
  | 0, cpu_idx, mapped_idx => if cpu_idx ≥ 0 then none else some mapped_idx
  | fuel + 1, cpu_idx, mapped_idx =>
    if cpu_idx ≥ 0 then
      let mapped_idx := mapped_idx + 1
      if CPU_ISSET_S mapped_idx size mask then scan_loop size mask fuel (cpu_idx - 1) mapped_idx
      else scan_loop size mask fuel cpu_idx mapped_idx
    else some mapped_idx

/-- The bit scan of lines 152-156: `mapped_idx` starts at -1. After `8 * size`
iterations every bit of the mask has been read, and a loop still running then
reads zeros for ever: `none` stands for that loop without end. -/
def scan (size : Nat) (mask : cpu_set_t) (cpu_idx : Int) : Option Int :=
  scan_loop size mask (8 * size) cpu_idx (-1)

/-- Value of `thr_idx` right before `thr_idx %= num_cpus` (lines 130-140). -/
def logical_index (cfg : PinConfig) (env : Env) (p : pinning_observer) : Int :=
  let thr_idx := if cfg.USE_TASK_ARENA_CURRENT_SLOT then env.current_slot else p.thread_index
  if cfg.MIC then int32 (thr_idx + 1) else thr_idx

/-- Lines 141-156 for a nonzero `num_cpus`: reduce, stripe, scan. -/
def mapped_index (size : Nat) (mask : cpu_set_t) (pinning_step t : Int) : Option Int :=
  let num_cpus := CPU_COUNT_S size mask
  let thr_idx := Int.tmod t num_cpus
  let cpu_idx := stripe num_cpus pinning_step thr_idx
  scan size mask cpu_idx

/-- Lines 158-160: the mask handed to `sched_setaffinity`. Its allocation is
not checked by the source and is taken to succeed. -/
def target_mask (env : Env) (ncpus : Int) (mapped_idx : Int) : cpu_set_t :=
  let size := CPU_ALLOC_SIZE ncpus
  CPU_SET_S mapped_idx size (CPU_ZERO_S size (CPU_ALLOC_mem env ncpus))

/-- How a call of `on_scheduler_entry` ends. -/
inductive Outcome where
  /-- The call returned to its caller. -/
  | returned
  /-- `thr_idx %= num_cpus` was evaluated with `num_cpus == 0`. -/
  | division_by_zero
  /-- The bit scan never ends. -/
  | no_return
  /-- The process was ended by `exit( EXIT_FAILURE )`. -/
  | exit_failure
deriving DecidableEq, Repr

/-- Result of a call of `on_scheduler_entry`: the observer afterwards, the
masks passed to `sched_setaffinity` in order, and how the call ended. -/
structure EntryResult where
  state : pinning_observer
  requests : List cpu_set_t
  outcome : Outcome
deriving DecidableEq, Repr

/-- The method `pinning_observer::on_scheduler_entry( bool )` (lines 125-176). -/
def pinning_observer.on_scheduler_entry (cfg : PinConfig) (env : Env) (p : pinning_observer) : EntryResult :=
  match p.mask with
  | none => ⟨p, [], .returned⟩
  | some mask =>
    let size := CPU_ALLOC_SIZE p.ncpus
    let num_cpus := CPU_COUNT_S size mask
    let t := logical_index cfg env p
    let p1 : pinning_observer :=
      if cfg.USE_TASK_ARENA_CURRENT_SLOT then p
      else { p with thread_index := int32 (p.thread_index + 1) }
    if num_cpus = 0 then ⟨p1, [], .division_by_zero⟩
    else
      match mapped_index size mask p.pinning_step t with
      | none => ⟨p1, [], .no_return⟩
      | some mapped_idx =>
        let target := target_mask env p.ncpus mapped_idx
        let err := env.sched_setaffinity size target
        if err ≠ 0 then ⟨p1, [target], .exit_failure⟩
        else ⟨p1, [target], .returned⟩

/-- A run of successive `on_scheduler_entry` calls, one for each element of
`envs`, stopping at the first call that does not return; the value gathers
the final observer, all requests made and the outcome of the last call made. -/
def entry_calls (cfg : PinConfig) : List Env → pinning_observer → EntryResult
  | [], p => ⟨p, [], .returned⟩
  | env :: envs, p =>
    let r := pinning_observer.on_scheduler_entry cfg env p
    match r.outcome with
    | .returned =>
      let rest := entry_calls cfg envs r.state
      ⟨rest.state, r.requests ++ rest.requests, rest.outcome⟩
    | _ => r

/-- The set bits of a mask seen through `size` bytes, in ascending order. -/
def set_bits (size : Nat) (mask : cpu_set_t) : List Nat :=
  (List.range (8 * size)).filter (fun i => mask.getD i false)

/-! ## `concurrency_tracker` -/

/-- Field of `concurrency_tracker`: the counter `tbb::atomic<int> num_threads`. -/
structure concurrency_tracker where
  num_threads : Int
deriving DecidableEq, Repr

/-- The constructor `concurrency_tracker()`: `num_threads()` is zero. -/
def concurrency_tracker.ctor : concurrency_tracker := ⟨0⟩

/-- The method `on_scheduler_entry( bool )`: `++num_threads`, an atomic
increment of an `int`, which wraps. -/
def concurrency_tracker.on_scheduler_entry (c : concurrency_tracker) : concurrency_tracker :=
  ⟨int32 (c.num_threads + 1)⟩

/-- The method `on_scheduler_exit( bool )`: `--num_threads`, an atomic
decrement of an `int`, which wraps. -/
def concurrency_tracker.on_scheduler_exit (c : concurrency_tracker) : concurrency_tracker :=
  ⟨int32 (c.num_threads - 1)⟩

/-- The method `get_concurrency()`. -/
def concurrency_tracker.get_concurrency (c : concurrency_tracker) : Int := c.num_threads

/-- A notification of the scheduler, with the thread that raises it. -/
inductive SchedEvent where
  /-- The thread enters the scheduler. -/
  | entry (thread : Nat)
  /-- The thread leaves the scheduler. -/
  | exit (thread : Nat)
deriving DecidableEq, Repr

/-- The tracker after the notifications of a trace, oldest first. -/
def concurrency_tracker.run : List SchedEvent → concurrency_tracker → concurrency_tracker
  | [], c => c
  | .entry _ :: es, c => concurrency_tracker.run es c.on_scheduler_entry
  | .exit _ :: es, c => concurrency_tracker.run es c.on_scheduler_exit

/-- The entry notifications that no exit has matched yet after a trace, each
given by its thread, `pending` being those before the trace. A thread that
entered twice without leaving is listed twice. -/
def unmatched_entries : List SchedEvent → List Nat → List Nat
  | [], pending => pending
  | .entry t :: es, pending => unmatched_entries es (t :: pending)
  | .exit t :: es, pending => unmatched_entries es (pending.erase t)

/-- The threads between their entry and their exit notification after a
trace: the threads that have an unmatched entry, each listed once. -/
def threads_inside (trace : List SchedEvent) : List Nat :=
  (unmatched_entries trace []).dedup

/-- Every exit of the trace is preceded by an entry of the same thread that
no earlier exit has matched, `pending` being the unmatched entries
beforehand. -/
def exits_matched : List SchedEvent → List Nat → Bool
  | [], _ => true
  | .entry t :: es, pending => exits_matched es (t :: pending)
  | .exit t :: es, pending => decide (t ∈ pending) && exits_matched es (pending.erase t)

/-- No thread of the trace enters again while it is inside, `pending` being
the unmatched entries beforehand. -/
def entries_fresh : List SchedEvent → List Nat → Bool
  | [], _ => true
  | .entry t :: es, pending => decide (t ∉ pending) && entries_fresh es (t :: pending)
  | .exit t :: es, pending => entries_fresh es (pending.erase t)

/-- The largest number of threads inside the scheduler at any moment of the
trace, `pending` being the unmatched entries beforehand. -/
def peak_inside : List SchedEvent → List Nat → Nat
  | [], pending => pending.dedup.length
  | .entry t :: es, pending => max pending.dedup.length (peak_inside es (t :: pending))
  | .exit t :: es, pending => max pending.dedup.length (peak_inside es (pending.erase t))

/-- The trace in which the threads `0 .. n-1` enter one after the other and
none leaves. -/
def many_entries (n : Nat) : List SchedEvent := (List.range n).map SchedEvent.entry

/-- Number of entry notifications of a trace. -/
def count_entries (trace : List SchedEvent) : Nat :=
  (trace.filter (fun e => match e with | .entry _ => true | .exit _ => false)).length

/-- Number of exit notifications of a trace. -/
def count_exits (trace : List SchedEvent) : Nat :=
  (trace.filter (fun e => match e with | .entry _ => false | .exit _ => true)).length

/-! ## `ThreadSafe` -/

/-- Modelled from the spec: the Exclusion Primitive `MUTEX_T`, one of the mutex
classes of TBB or TinyThread++ that `threading.h` only names. `held` is the
lock state; `lock_calls` and `unlock_calls` count the completed calls. -/
structure MUTEX_T where
  held : Bool
  lock_calls : Nat
  unlock_calls : Nat
deriving DecidableEq, Repr

/-- Modelled from the spec: `acquire()` of the Exclusion Primitive, which is
missing from the sources: it waits until no thread holds the primitive, then
marks it held. With no other thread to release it, a held primitive makes the
caller wait for ever: `none`. -/
def MUTEX_T.lock (m : MUTEX_T) : Option MUTEX_T :=
  if m.held then none else some { m with held := true, lock_calls := m.lock_calls + 1 }

/-- Modelled from the spec: `release()` of the Exclusion Primitive, which is
missing from the sources: it clears the held state. -/
def MUTEX_T.unlock (m : MUTEX_T) : MUTEX_T :=
  { m with held := false, unlock_calls := m.unlock_calls + 1 }

/-- The mutexes in memory, by address. -/
abbrev Heap := Nat → MUTEX_T

/-- Preprocessor switches read by `ThreadSafe`; `NDEBUG` turns `assert` into
nothing. -/
structure GuardConfig where
  WITH_TBB : Bool
  NO_SPINLOCK : Bool
  WITH_QUEUELOCK : Bool
  NDEBUG : Bool
deriving DecidableEq, Repr

/-- The condition `WITH_TBB && NO_SPINLOCK && WITH_QUEUELOCK`, under which the
guard holds a `MUTEX_T::scoped_lock` member instead of a pointer. -/
def GuardConfig.scoped_lock_member (cfg : GuardConfig) : Bool :=
  cfg.WITH_TBB && cfg.NO_SPINLOCK && cfg.WITH_QUEUELOCK

/-- A `ThreadSafe` object: the address kept in `ptr_mutex_` (or bound by the
`scoped_lock` member `mutex_`); `none` is the null pointer. -/
structure ThreadSafe where
  ptr_mutex_ : Option Nat
deriving DecidableEq, Repr

/-- How the construction of a `ThreadSafe` ends. -/
inductive CtorResult where
  /-- The `assert` failed: the process is aborted. -/
  | assertion_failed
  /-- The null pointer was dereferenced. -/
  | null_dereference
  /-- The call of `lock` never returns. -/
  | blocked
  /-- The guard is built; the memory afterwards. -/
  | constructed (guard : ThreadSafe) (heap : Heap)

/-- The constructor `ThreadSafe(MUTEX_T* ptr_mutex)` (lines 58-70). With the
`scoped_lock` member, `mutex_(*ptr_mutex)` dereferences the pointer and
acquires the mutex; otherwise the pointer is stored, checked by `assert`
unless `NDEBUG` is defined, and `ptr_mutex_->lock()` is called. -/
def ThreadSafe.ctor (cfg : GuardConfig) (ptr_mutex : Option Nat) (heap : Heap) : CtorResult :=
  if cfg.scoped_lock_member then
    match ptr_mutex with
    | none => .null_dereference
    | some a =>
      match (heap a).lock with
      | none => .blocked
      | some m => .constructed ⟨some a⟩ (Function.update heap a m)
  else
    if !cfg.NDEBUG && ptr_mutex.isNone then .assertion_failed
    else
      match ptr_mutex with
      | none => .null_dereference
      | some a =>
        match (heap a).lock with
        | none => .blocked
        | some m => .constructed ⟨some a⟩ (Function.update heap a m)

/-- The destructor `~ThreadSafe()` (lines 72-77): `ptr_mutex_->unlock()`, or
the release done by the destructor of the `scoped_lock` member; `none` if the
pointer is null. -/
def ThreadSafe.dtor (g : ThreadSafe) (heap : Heap) : Option Heap :=
  match g.ptr_mutex_ with
  | none => none
  | some a => some (Function.update heap a (heap a).unlock)

/-- How a scope that declares a `ThreadSafe` ends. -/
inductive ScopeResult (ε α : Type) where
  /-- The `assert` of the constructor failed. -/
  | assertion_failed
  /-- The null pointer was dereferenced. -/
  | null_dereference
  /-- The call of `lock` never returns. -/
  | blocked
  /-- The scope was left, with the value or the error of its body; the memory
  afterwards. -/
  | left (result : Except ε α) (heap : Heap)

/-- A scope `{ ThreadSafe ts(ptr_mutex); body }`: the guard is constructed,
the body runs on the memory it finds, and the destructor runs when the scope
is left, whether the body completes (`.ok`) or an error propagates out of it
(`.error`). The body reads the memory and does not write the mutexes. -/
def ThreadSafe.scope {ε α : Type} (cfg : GuardConfig) (ptr_mutex : Option Nat) (heap : Heap)
    (body : Heap → Except ε α) : ScopeResult ε α :=
  match ThreadSafe.ctor cfg ptr_mutex heap with
  | .assertion_failed => .assertion_failed
  | .null_dereference => .null_dereference
  | .blocked => .blocked
  | .constructed g heap1 =>
    let result := body heap1
    match g.dtor heap1 with
    | none => .null_dereference
    | some heap2 => .left result heap2

/-! ## Sample inputs -/

/-- An operating system that grants every allocation, hands out cleared
memory, reports the affinity mask `bits` and accepts every affinity request. -/
def sample_env (bits : List Bool) : Env :=
  ⟨fun _ => true, fun _ => false, fun _ _ => .ok bits, 0, fun _ _ => 0⟩

/-- An operating system whose `sched_getaffinity` always fails with `EINVAL`. -/
def einval_env : Env :=
  ⟨fun _ => true, fun _ => false, fun _ _ => .error EINVAL, 0, fun _ _ => 0⟩

/-- The default build: shared thread counter, no `__MIC__`. -/
def default_config : PinConfig := ⟨false, false⟩

/-- A memory in which every mutex is free and was never used. -/
def fresh_heap : Heap := fun _ => ⟨false, 0, 0⟩

/-- A scope body that fails with error 1 when it finds the mutex at address 7
held, and completes with value 0 otherwise. -/
def sample_body : Heap → Except Nat Nat :=
  fun heap => if (heap 7).held then .error 1 else .ok 0

/-- A release build with the pointer member: `NDEBUG` defined, no TBB. -/
def release_config : GuardConfig := ⟨false, false, false, true⟩

/-- A debug build with the pointer member: `NDEBUG` not defined, no TBB. -/
def debug_config : GuardConfig := ⟨false, false, false, false⟩

/-! ## Auxiliary definitions for the proofs -/


/-- The loop body over the naturals, without wrap. -/
def stripe_body_nat (n s : Nat) (st : Nat × Nat) : Nat × Nat :=
  if st.1 + s ≥ n then (st.2 + 1, st.2 + 1) else (st.1 + s, st.2)

/-- State after `k` passes through the body over the naturals. -/
def stripe_iter_nat (n s : Nat) : Nat → Nat × Nat → Nat × Nat
  | 0, st => st
  | k + 1, st => stripe_body_nat n s (stripe_iter_nat n s k st)

/-- Positions at or before `c` in the order of the striping. -/
def visited (n s c : Nat) : Finset Nat :=
  (Finset.range n).filter (fun x => x % s < c % s ∨ (x % s = c % s ∧ x ≤ c))

theorem mod_eq_step {s x c : Nat} (h : x % s = c % s) (hlt : c < x) : c + s ≤ x := by
  have h0 : (x - c) % s = 0 := Nat.sub_mod_eq_zero_of_mod_eq h
  have hd : s ∣ x - c := Nat.dvd_of_mod_eq_zero h0
  have : s ≤ x - c := Nat.le_of_dvd (by omega) hd
  omega

theorem visited_zero (n s : Nat) (hn : 0 < n) : (visited n s 0).card = 1 := by
  have : visited n s 0 = {0} := by
    ext x
    simp only [visited, Finset.mem_filter, Finset.mem_range, Finset.mem_singleton, Nat.zero_mod]
    constructor
    · rintro ⟨_, h | ⟨_, h⟩⟩
      · omega
      · omega
    · rintro rfl
      exact ⟨hn, Or.inr ⟨by simp, le_refl _⟩⟩
  rw [this]; rfl

theorem visited_stride (n s c : Nat) (hs : 0 < s) (hc : c + s < n) :
    (visited n s (c + s)).card = (visited n s c).card + 1 := by
  have hmod : (c + s) % s = c % s := Nat.add_mod_right c s
  have hins : visited n s (c + s) = insert (c + s) (visited n s c) := by
    ext x
    simp only [visited, Finset.mem_filter, Finset.mem_range, Finset.mem_insert, hmod]
    constructor
    · rintro ⟨hx, h | ⟨h1, h2⟩⟩
      · exact Or.inr ⟨hx, Or.inl h⟩
      · by_cases hxc : x ≤ c
        · exact Or.inr ⟨hx, Or.inr ⟨h1, hxc⟩⟩
        · have := mod_eq_step h1 (by omega)
          left; omega
    · rintro (rfl | ⟨hx, h | ⟨h1, h2⟩⟩)
      · exact ⟨hc, Or.inr ⟨hmod, le_refl _⟩⟩
      · exact ⟨hx, Or.inl h⟩
      · exact ⟨hx, Or.inr ⟨h1, by omega⟩⟩
  have hnot : c + s ∉ visited n s c := by
    simp only [visited, Finset.mem_filter, Finset.mem_range, hmod]
    rintro ⟨_, h | ⟨_, h⟩⟩ <;> omega
  rw [hins, Finset.card_insert_of_not_mem hnot]

theorem visited_full (n s c : Nat) (hc : c < n) (hw : n ≤ c + s)
    (hend : ¬ (c % s + 1 < s ∧ c % s + 1 < n)) : visited n s c = Finset.range n := by
  ext x
  simp only [visited, Finset.mem_filter, Finset.mem_range]
  constructor
  · exact fun h => h.1
  · intro hx
    refine ⟨hx, ?_⟩
    have hxs : x % s ≤ x := Nat.mod_le x s
    have hcs : c % s ≤ c := Nat.mod_le c s
    rcases Nat.eq_zero_or_pos s with hs | hs
    · subst hs; simp at hw; omega
    have hxlt : x % s < s := Nat.mod_lt x hs
    have hle : x % s ≤ c % s := by omega
    rcases Nat.lt_or_eq_of_le hle with h | h
    · exact Or.inl h
    · refine Or.inr ⟨h, ?_⟩
      by_contra hcon
      have := mod_eq_step h (by omega)
      omega

theorem visited_wrap (n s c : Nat) (hw : n ≤ c + s)
    (h1 : c % s + 1 < s) (h2 : c % s + 1 < n) :
    (visited n s (c % s + 1)).card = (visited n s c).card + 1 := by
  have hmod : (c % s + 1) % s = c % s + 1 := Nat.mod_eq_of_lt h1
  have hins : visited n s (c % s + 1) = insert (c % s + 1) (visited n s c) := by
    ext x
    simp only [visited, Finset.mem_filter, Finset.mem_range, Finset.mem_insert, hmod]
    have hxs : x % s ≤ x := Nat.mod_le x s
    constructor
    · rintro ⟨hx, h | ⟨h1, h2⟩⟩
      · right
        refine ⟨hx, ?_⟩
        rcases Nat.lt_or_eq_of_le (Nat.lt_succ_iff.mp h) with h | h
        · exact Or.inl h
        · refine Or.inr ⟨h, ?_⟩
          by_contra hcon
          have := mod_eq_step h (by omega)
          omega
      · left; omega
    · rintro (rfl | ⟨hx, h | ⟨h1, h2⟩⟩)
      · exact ⟨h2, Or.inr ⟨hmod, le_refl _⟩⟩
      · exact ⟨hx, Or.inl (by omega)⟩
      · exact ⟨hx, Or.inl (by omega)⟩
  have hnot : c % s + 1 ∉ visited n s c := by
    simp only [visited, Finset.mem_filter, Finset.mem_range, hmod]
    rintro ⟨_, h | ⟨h, _⟩⟩ <;> omega
  rw [hins, Finset.card_insert_of_not_mem hnot]

/-- Invariant of the striping loop during its first `n` states. -/
theorem stripe_iter_nat_inv (n s : Nat) (hn : 0 < n) (hs : 0 < s) (i : Nat) (hi : i < n) :
    (stripe_iter_nat n s i (0, 0)).1 < n ∧
    (stripe_iter_nat n s i (0, 0)).2 = (stripe_iter_nat n s i (0, 0)).1 % s ∧
    (visited n s (stripe_iter_nat n s i (0, 0)).1).card = i + 1 := by
  induction i with
  | zero => exact ⟨hn, by simp [stripe_iter_nat], by simpa [stripe_iter_nat] using visited_zero n s hn⟩
  | succ k ih =>
    obtain ⟨hc, ho, hcard⟩ := ih (by omega)
    simp only [stripe_iter_nat, stripe_body_nat]
    generalize stripe_iter_nat n s k (0, 0) = st at hc ho hcard
    obtain ⟨c, o⟩ := st
    simp only at hc ho hcard ⊢
    by_cases hw : c + s ≥ n
    · simp only [hw, if_true]
      have hgo : c % s + 1 < s ∧ c % s + 1 < n := by
        by_contra hend
        have := visited_full n s c hc hw hend
        rw [this, Finset.card_range] at hcard
        omega
      subst ho
      refine ⟨hgo.2, (Nat.mod_eq_of_lt hgo.1).symm, ?_⟩
      rw [visited_wrap n s c hw hgo.1 hgo.2, hcard]
    · simp only [hw, if_false]
      have hlt : c + s < n := by omega
      refine ⟨hlt, by rw [Nat.add_mod_right]; exact ho, ?_⟩
      rw [visited_stride n s c hs hlt, hcard]


theorem int32_eq_self {x : Int} (h1 : -2147483648 ≤ x) (h2 : x < 2147483648) : int32 x = x := by
  unfold int32; omega

theorem stripe_iter_cast (n s : Nat) (hn : 0 < n) (hs : 0 < s) (hov : n + s ≤ 2147483648)
    (i : Nat) (hi : i < n) :
    stripe_iter (n : Int) (s : Int) i (0, 0) =
      (((stripe_iter_nat n s i (0, 0)).1 : Int), ((stripe_iter_nat n s i (0, 0)).2 : Int)) := by
  induction i with
  | zero => simp [stripe_iter, stripe_iter_nat]
  | succ k ih =>
    obtain ⟨hc, ho, -⟩ := stripe_iter_nat_inv n s hn hs k (by omega)
    simp only [stripe_iter, stripe_iter_nat, ih (by omega), stripe_body, stripe_body_nat]
    generalize stripe_iter_nat n s k (0, 0) = st at hc ho
    obtain ⟨c, o⟩ := st
    simp only at hc ho ⊢
    have hoc : o ≤ c := by rw [ho]; exact Nat.mod_le c s
    have e1 : int32 ((c : Int) + (s : Int)) = (c : Int) + (s : Int) :=
      int32_eq_self (by omega) (by omega)
    have e2 : int32 ((o : Int) + 1) = (o : Int) + 1 := int32_eq_self (by omega) (by omega)
    rw [e1, e2]
    by_cases hw : c + s ≥ n
    · have hw2 : (c : Int) + (s : Int) ≥ (n : Int) := by omega
      simp [hw, hw2]
    · have hw2 : ¬ ((c : Int) + (s : Int) ≥ (n : Int)) := by omega
      simp [hw, hw2]

theorem stripe_cast (n s : Nat) (hn : 0 < n) (hs : 0 < s) (hov : n + s ≤ 2147483648)
    (i : Nat) (hi : i < n) :
    stripe (n : Int) (s : Int) (i : Int) = ((stripe_iter_nat n s i (0, 0)).1 : Int) := by
  unfold stripe
  rw [Int.toNat_natCast, stripe_iter_cast n s hn hs hov i hi]

theorem stripe_nat_inj (n s : Nat) (hn : 0 < n) (hs : 0 < s) (i j : Nat) (hi : i < n) (hj : j < n)
    (h : (stripe_iter_nat n s i (0, 0)).1 = (stripe_iter_nat n s j (0, 0)).1) : i = j := by
  have h1 := (stripe_iter_nat_inv n s hn hs i hi).2.2
  have h2 := (stripe_iter_nat_inv n s hn hs j hj).2.2
  rw [h] at h1
  omega

theorem stripe_nat_surj (n s : Nat) (hn : 0 < n) (hs : 0 < s) (c : Nat) (hc : c < n) :
    ∃ i, i < n ∧ (stripe_iter_nat n s i (0, 0)).1 = c := by
  have hsub : (Finset.range n).image (fun i => (stripe_iter_nat n s i (0, 0)).1) ⊆ Finset.range n := by
    intro x hx
    obtain ⟨i, hi, rfl⟩ := Finset.mem_image.mp hx
    exact Finset.mem_range.mpr (stripe_iter_nat_inv n s hn hs i (Finset.mem_range.mp hi)).1
  have hcard : ((Finset.range n).image (fun i => (stripe_iter_nat n s i (0, 0)).1)).card
      = (Finset.range n).card := by
    apply Finset.card_image_of_injOn
    intro i hi j hj hij
    exact stripe_nat_inj n s hn hs i j (Finset.mem_range.mp hi) (Finset.mem_range.mp hj) hij
  have heq := Finset.eq_of_subset_of_card_le hsub (le_of_eq hcard.symm)
  have hmem : c ∈ (Finset.range n).image (fun i => (stripe_iter_nat n s i (0, 0)).1) := by
    rw [heq]; exact Finset.mem_range.mpr hc
  obtain ⟨i, hi, h⟩ := Finset.mem_image.mp hmem
  exact ⟨i, Finset.mem_range.mp hi, h⟩

theorem stripe_range (num_cpus pinning_step : Int) (hn : 1 ≤ num_cpus)
    (hs : 1 ≤ pinning_step) (hov : num_cpus - 1 + pinning_step ≤ INT_MAX)
    (thr_idx : Int) (h0 : 0 ≤ thr_idx) (hlt : thr_idx < num_cpus) :
    0 ≤ stripe num_cpus pinning_step thr_idx ∧ stripe num_cpus pinning_step thr_idx < num_cpus := by
  lift num_cpus to ℕ using (by omega)
  lift pinning_step to ℕ using (by omega)
  lift thr_idx to ℕ using h0
  have hn0 : 0 < num_cpus := by omega
  have hs0 : 0 < pinning_step := by omega
  have hov0 : num_cpus + pinning_step ≤ 2147483648 := by unfold INT_MAX at hov; omega
  have hi : thr_idx < num_cpus := by omega
  rw [stripe_cast num_cpus pinning_step hn0 hs0 hov0 thr_idx hi]
  have := (stripe_iter_nat_inv num_cpus pinning_step hn0 hs0 thr_idx hi).1
  omega

/-- C1. Striping is a bijection: for `num_cpus ≥ 1` and a pinning step `≥ 1`
whose sums `cpu_idx + pinning_step` (with `cpu_idx ≤ num_cpus - 1`) do not
overflow `int`, the striping loop sends the indices `0 ≤ thr_idx < num_cpus`
into `[0, num_cpus)`, sends no two of them to the same position, and reaches
every position of `[0, num_cpus)`. -/
theorem stripe_bijection (num_cpus pinning_step : Int) (hn : 1 ≤ num_cpus)
    (hs : 1 ≤ pinning_step) (hov : num_cpus - 1 + pinning_step ≤ INT_MAX) :
    (∀ thr_idx, 0 ≤ thr_idx → thr_idx < num_cpus →
      0 ≤ stripe num_cpus pinning_step thr_idx ∧ stripe num_cpus pinning_step thr_idx < num_cpus) ∧
    (∀ t1 t2, 0 ≤ t1 → t1 < num_cpus → 0 ≤ t2 → t2 < num_cpus →
      stripe num_cpus pinning_step t1 = stripe num_cpus pinning_step t2 → t1 = t2) ∧
    (∀ cpu_idx, 0 ≤ cpu_idx → cpu_idx < num_cpus →
      ∃ thr_idx, 0 ≤ thr_idx ∧ thr_idx < num_cpus ∧
        stripe num_cpus pinning_step thr_idx = cpu_idx) := by
  lift num_cpus to ℕ using (by omega)
  lift pinning_step to ℕ using (by omega)
  have hn0 : 0 < num_cpus := by omega
  have hs0 : 0 < pinning_step := by omega
  have hov0 : num_cpus + pinning_step ≤ 2147483648 := by unfold INT_MAX at hov; omega
  refine ⟨?_, ?_, ?_⟩
  · intro t ht0 htn
    exact stripe_range _ _ hn hs hov t ht0 htn
  · intro t1 t2 h10 h1n h20 h2n h
    lift t1 to ℕ using h10
    lift t2 to ℕ using h20
    have hi : t1 < num_cpus := by omega
    have hj : t2 < num_cpus := by omega
    rw [stripe_cast num_cpus pinning_step hn0 hs0 hov0 t1 hi, stripe_cast num_cpus pinning_step hn0 hs0 hov0 t2 hj] at h
    have := stripe_nat_inj num_cpus pinning_step hn0 hs0 t1 t2 hi hj (by exact_mod_cast h)
    exact_mod_cast this
  · intro c hc0 hcn
    lift c to ℕ using hc0
    obtain ⟨i, hi, h⟩ := stripe_nat_surj num_cpus pinning_step hn0 hs0 c (by omega)
    refine ⟨(i : Int), by omega, by omega, ?_⟩
    rw [stripe_cast num_cpus pinning_step hn0 hs0 hov0 i hi, h]

/-- Witness of C1 at `num_cpus = 5`, `pinning_step = 2`. -/
theorem stripe_bijection_witness :
    (1 : Int) ≤ 5 ∧ (1 : Int) ≤ 2 ∧ (5 : Int) - 1 + 2 ≤ INT_MAX ∧
    ((∀ thr_idx, 0 ≤ thr_idx → thr_idx < 5 → 0 ≤ stripe 5 2 thr_idx ∧ stripe 5 2 thr_idx < 5) ∧
    (∀ t1 t2, 0 ≤ t1 → t1 < 5 → 0 ≤ t2 → t2 < 5 → stripe 5 2 t1 = stripe 5 2 t2 → t1 = t2) ∧
    (∀ cpu_idx, 0 ≤ cpu_idx → cpu_idx < 5 →
      ∃ thr_idx, 0 ≤ thr_idx ∧ thr_idx < 5 ∧ stripe 5 2 thr_idx = cpu_idx)) :=
  ⟨by decide, by decide, by decide, stripe_bijection 5 2 (by decide) (by decide) (by decide)⟩


theorem stripe_iter_step_one (num_cpus : Int) (hmax : num_cpus ≤ INT_MAX) (k : Nat)
    (hk : (k : Int) < num_cpus) : stripe_iter num_cpus 1 k (0, 0) = ((k : Int), 0) := by
  induction k with
  | zero => simp [stripe_iter]
  | succ j ih =>
    have hj : (j : Int) < num_cpus := by omega
    unfold INT_MAX at hmax
    have e : int32 ((j : Int) + 1) = (j : Int) + 1 := int32_eq_self (by omega) (by omega)
    have hlt : ¬ ((j : Int) + 1 ≥ num_cpus) := by push_cast at hk; omega
    simp only [stripe_iter, ih hj, stripe_body, e, hlt, if_false]
    push_cast
    rfl

/-- C7. With pinning step 1 the striping loop is the identity: for
`num_cpus ≥ 1` (an `int`) and `0 ≤ thr_idx < num_cpus` it yields
`cpu_idx = thr_idx`. -/
theorem stripe_step_one_identity (num_cpus thr_idx : Int)
    (hmax : num_cpus ≤ INT_MAX) (h0 : 0 ≤ thr_idx) (hlt : thr_idx < num_cpus) :
    stripe num_cpus 1 thr_idx = thr_idx := by
  lift thr_idx to ℕ using h0
  unfold stripe
  rw [Int.toNat_natCast, stripe_iter_step_one num_cpus hmax thr_idx hlt]

/-- Witness of C7: `num_cpus = 4`, where the indices 0, 1, 2, 3 map to the
positions 0, 1, 2, 3. -/
theorem stripe_step_one_identity_witness :
    ((4 : Int) ≤ INT_MAX ∧ (0 : Int) ≤ 3 ∧ (3 : Int) < 4) ∧
    stripe 4 1 0 = 0 ∧ stripe 4 1 1 = 1 ∧ stripe 4 1 2 = 2 ∧ stripe 4 1 3 = 3 :=
  ⟨by decide,
   stripe_step_one_identity 4 0 (by decide) (by decide) (by decide),
   stripe_step_one_identity 4 1 (by decide) (by decide) (by decide),
   stripe_step_one_identity 4 2 (by decide) (by decide) (by decide),
   stripe_step_one_identity 4 3 (by decide) (by decide) (by decide)⟩

/-- C8. Diagonal example: for the mask {0,1,2,3,4}, whose `num_cpus` is 5, and
pinning step 2, the striping loop maps the indices 0, 1, 2, 3, 4 to the
positions 0, 2, 4, 1, 3. -/
theorem stripe_diagonal_example :
    CPU_COUNT_S 8 [true, true, true, true, true] = 5 ∧
    (List.range 5).map (fun t => stripe (CPU_COUNT_S 8 [true, true, true, true, true]) 2 t)
      = [0, 2, 4, 1, 3] := by
  decide

/-! ### The bit scan -/

theorem CPU_ISSET_S_natCast (size : Nat) (mask : cpu_set_t) (i : Nat) :
    CPU_ISSET_S (i : Int) size mask = (decide (i < 8 * size) && mask.getD i false) := by
  unfold CPU_ISSET_S
  by_cases h : i < 8 * size
  · have h2 : i / 8 < size := by omega
    simp [h, h2]
  · have h2 : ¬ (i / 8 < size) := by omega
    simp [h, h2]

theorem set_bits_eq (size : Nat) (mask : cpu_set_t) :
    set_bits size mask
      = (List.range' 0 (8 * size)).filter (fun i : Nat => CPU_ISSET_S (i : Int) size mask) := by
  unfold set_bits
  rw [← List.range_eq_range']
  apply List.filter_congr
  intro i hi
  rw [CPU_ISSET_S_natCast]
  simp [List.mem_range.mp hi]

theorem scan_loop_done (size : Nat) (mask : cpu_set_t) (fuel : Nat) (cpu_idx mapped_idx : Int)
    (h : cpu_idx < 0) : scan_loop size mask fuel cpu_idx mapped_idx = some mapped_idx := by
  have h2 : ¬ (cpu_idx ≥ 0) := by omega
  cases fuel <;> simp [scan_loop, h2]

theorem scan_loop_spec (size : Nat) (mask : cpu_set_t) (fuel : Nat) :
    ∀ (m k j : Nat),
      ((List.range' m fuel).filter (fun i : Nat => CPU_ISSET_S (i : Int) size mask))[k]? = some j →
      scan_loop size mask fuel (k : Int) ((m : Int) - 1) = some (j : Int) := by
  induction fuel with
  | zero => intro m k j h; simp at h
  | succ f ih =>
    intro m k j h
    rw [List.range'_succ, List.filter_cons] at h
    have hk : (k : Int) ≥ 0 := by omega
    have hm : (m : Int) - 1 + 1 = (m : Int) := by omega
    simp only [scan_loop, hk, if_true, hm]
    by_cases hp : CPU_ISSET_S (m : Int) size mask = true
    · simp only [hp, if_true] at h ⊢
      cases k with
      | zero =>
        simp only [List.getElem?_cons_zero, Option.some.injEq] at h
        subst h
        exact scan_loop_done size mask f _ _ (by simp)
      | succ k1 =>
        simp only [List.getElem?_cons_succ] at h
        have := ih (m + 1) k1 j h
        push_cast at this ⊢
        simpa using this
    · simp only [hp] at h ⊢
      have := ih (m + 1) k j h
      push_cast at this ⊢
      simpa using this

theorem count_take_eq (l : List Bool) :
    ∀ N : Nat, (l.take N).count true = ((List.range N).filter (fun i => l.getD i false)).length := by
  induction l with
  | nil => intro N; simp
  | cons b bs ih =>
    intro N
    cases N with
    | zero => simp
    | succ N =>
      have hcomp : ((fun i => (b :: bs).getD i false) ∘ Nat.succ) = fun i => bs.getD i false := by
        funext i; simp
      rw [List.take_succ_cons, List.count_cons, ih N, List.range_succ_eq_map, List.filter_cons,
        List.filter_map, hcomp]
      cases b <;> simp

theorem CPU_COUNT_S_eq (size : Nat) (mask : cpu_set_t) :
    CPU_COUNT_S size mask = ((set_bits size mask).length : Int) := by
  unfold CPU_COUNT_S set_bits
  rw [count_take_eq]

theorem scan_eq_of_set_bits (size : Nat) (mask : cpu_set_t) (k j : Nat)
    (h : (set_bits size mask)[k]? = some j) : scan size mask (k : Int) = some (j : Int) := by
  rw [set_bits_eq] at h
  have := scan_loop_spec size mask (8 * size) 0 k j h
  simpa [scan] using this

theorem set_bits_ascending (size : Nat) (mask : cpu_set_t) :
    (set_bits size mask).Pairwise (fun a b => a < b) :=
  List.Pairwise.sublist (List.filter_sublist _) (List.pairwise_lt_range (8 * size))

theorem mem_set_bits (size : Nat) (mask : cpu_set_t) (j : Nat) :
    j ∈ set_bits size mask ↔ CPU_ISSET_S (j : Int) size mask = true := by
  rw [CPU_ISSET_S_natCast]
  simp [set_bits, List.mem_filter]

theorem scan_loop_stuck (size : Nat) (mask : cpu_set_t) (fuel : Nat) :
    ∀ (m k : Nat),
      ((List.range' m (8 * size - m)).filter
        (fun i : Nat => CPU_ISSET_S (i : Int) size mask)).length ≤ k →
      scan_loop size mask fuel (k : Int) ((m : Int) - 1) = none := by
  induction fuel with
  | zero => intro m k _; simp [scan_loop]
  | succ f ih =>
    intro m k h
    have hk : (k : Int) ≥ 0 := by omega
    have hm : (m : Int) - 1 + 1 = (m : Int) := by omega
    have hnext : ((m + 1 : Nat) : Int) - 1 = (m : Int) := by push_cast; omega
    simp only [scan_loop, hk, if_true, hm]
    by_cases hlt : m < 8 * size
    · have hsplit : 8 * size - m = (8 * size - (m + 1)) + 1 := by omega
      rw [hsplit, List.range'_succ, List.filter_cons] at h
      by_cases hp : CPU_ISSET_S (m : Int) size mask = true
      · simp only [hp, if_true, List.length_cons] at h ⊢
        obtain ⟨k1, rfl⟩ : ∃ k1, k = k1 + 1 := ⟨k - 1, by omega⟩
        have := ih (m + 1) k1 (by omega)
        rw [hnext] at this
        push_cast
        simpa using this
      · simp only [hp] at h ⊢
        have := ih (m + 1) k h
        rw [hnext] at this
        simpa using this
    · have hp : ¬ (CPU_ISSET_S (m : Int) size mask = true) := by
        rw [CPU_ISSET_S_natCast]; simp [hlt]
      simp only [hp]
      have hz : 8 * size - (m + 1) = 0 := by omega
      have := ih (m + 1) k (by rw [hz]; simp)
      rw [hnext] at this
      simpa using this

/-- The `none` of `scan` is a loop without end: no amount of fuel lets the
loop return. -/
theorem scan_none_forever (size : Nat) (mask : cpu_set_t) (cpu_idx : Int)
    (h : scan size mask cpu_idx = none) (fuel : Nat) :
    scan_loop size mask fuel cpu_idx (-1) = none := by
  by_cases hneg : cpu_idx < 0
  · rw [scan, scan_loop_done size mask _ _ _ hneg] at h
    cases h
  · lift cpu_idx to ℕ using (by omega)
    by_cases hlt : cpu_idx < (set_bits size mask).length
    · rw [scan_eq_of_set_bits size mask cpu_idx _ (List.getElem?_eq_getElem hlt)] at h
      cases h
    · rw [set_bits_eq] at hlt
      have := scan_loop_stuck size mask fuel 0 cpu_idx (by simpa using hlt)
      simpa using this

/-- C2. Ordinal-to-CPU translation: for every mask and every `cpu_pos` with
`0 ≤ cpu_pos < num_cpus` (the number of set bits of the mask), the bit scan
returns, with `mapped_idx` equal to the `cpu_pos`-th set bit of the mask,
counted from 0 in ascending order. -/
theorem scan_yields_nth_set_bit (size : Nat) (mask : cpu_set_t) (cpu_pos : Int)
    (h0 : 0 ≤ cpu_pos) (hlt : cpu_pos < CPU_COUNT_S size mask) :
    ∃ j : Nat, (set_bits size mask)[cpu_pos.toNat]? = some j ∧
      scan size mask cpu_pos = some (j : Int) := by
  lift cpu_pos to ℕ using h0
  rw [CPU_COUNT_S_eq] at hlt
  have hk : cpu_pos < (set_bits size mask).length := by exact_mod_cast hlt
  refine ⟨(set_bits size mask)[cpu_pos], ?_, ?_⟩
  · simp [List.getElem?_eq_getElem hk]
  · exact scan_eq_of_set_bits size mask cpu_pos _ (List.getElem?_eq_getElem hk)

/-- Witness of C2: the mask {2,5,7} and `cpu_pos = 1`, where the scan yields 5. -/
theorem scan_yields_nth_set_bit_witness :
    ((0 : Int) ≤ 1 ∧
      (1 : Int) < CPU_COUNT_S 8 [false, false, true, false, false, true, false, true]) ∧
    (∃ j : Nat,
      (set_bits 8 [false, false, true, false, false, true, false, true])[(1 : Int).toNat]? = some j ∧
      scan 8 [false, false, true, false, false, true, false, true] 1 = some (j : Int)) ∧
    set_bits 8 [false, false, true, false, false, true, false, true] = [2, 5, 7] ∧
    scan 8 [false, false, true, false, false, true, false, true] 1 = some 5 :=
  ⟨by decide,
   scan_yields_nth_set_bit 8 [false, false, true, false, false, true, false, true] 1
     (by decide) (by decide),
   by decide, by decide⟩


/-! ### `on_scheduler_entry` -/

theorem set_bits_mem (size : Nat) (mask : cpu_set_t) (j : Nat) (h : j ∈ set_bits size mask) :
    j < 8 * size ∧ CPU_ISSET_S (j : Int) size mask = true := by
  unfold set_bits at h
  obtain ⟨h1, h2⟩ := List.mem_filter.mp h
  have hj := List.mem_range.mp h1
  refine ⟨hj, ?_⟩
  rw [CPU_ISSET_S_natCast, h2]
  simp [hj]

theorem CPU_ZERO_S_alloc (env : Env) (ncpus : Int) :
    CPU_ZERO_S (CPU_ALLOC_SIZE ncpus) (CPU_ALLOC_mem env ncpus)
      = List.replicate (8 * CPU_ALLOC_SIZE ncpus) false := by
  unfold CPU_ZERO_S CPU_ALLOC_mem
  rw [List.drop_of_length_le (by simp)]
  simp

theorem target_mask_single_bit (env : Env) (ncpus : Int) (j : Nat)
    (hj : j < 8 * CPU_ALLOC_SIZE ncpus) (i : Int) :
    CPU_ISSET_S i (CPU_ALLOC_SIZE ncpus) (target_mask env ncpus (j : Int)) = true ↔ i = (j : Int) := by
  have hj8 : j / 8 < CPU_ALLOC_SIZE ncpus := by omega
  simp only [target_mask, CPU_ZERO_S_alloc, CPU_SET_S, Int.toNat_natCast, hj8, Int.natCast_nonneg,
    and_self, if_true]
  by_cases hi : 0 ≤ i
  · lift i to ℕ using hi
    rw [CPU_ISSET_S_natCast, List.getD_eq_getElem?_getD, List.getElem?_set]
    by_cases hij : j = i
    · subst hij
      simp [hj]
    · have hne : ¬ ((i : Int) = (j : Int)) := by omega
      simp [hij, hne, List.getElem?_replicate]
      intro _
      split <;> simp
  · have hne : ¬ (i = (j : Int)) := by omega
    simp [CPU_ISSET_S, hi, hne]

/-- C10, as amended. The pinned core is a permitted core: for every captured
mask with at least one set bit, every pinning step `≥ 1` whose sums
`cpu_idx + pinning_step` (with `cpu_idx ≤ num_cpus - 1`) do not overflow `int`,
and every logical thread index `t ≥ 0`, the computation of
`on_scheduler_entry` (reduce `t` mod `num_cpus`, stripe, scan) ends with a
`mapped_idx` that is a set bit of the captured mask, and the one affinity
request made carries a target mask holding that single bit only. -/
theorem pinned_core_is_permitted (cfg : PinConfig) (env : Env) (p : pinning_observer)
    (mask : cpu_set_t) (hmask : p.mask = some mask)
    (hcount : 1 ≤ CPU_COUNT_S (CPU_ALLOC_SIZE p.ncpus) mask)
    (hstep : 1 ≤ p.pinning_step)
    (hov : CPU_COUNT_S (CPU_ALLOC_SIZE p.ncpus) mask - 1 + p.pinning_step ≤ INT_MAX)
    (ht : 0 ≤ logical_index cfg env p) :
    ∃ mapped_idx : Int,
      mapped_index (CPU_ALLOC_SIZE p.ncpus) mask p.pinning_step (logical_index cfg env p)
        = some mapped_idx ∧
      CPU_ISSET_S mapped_idx (CPU_ALLOC_SIZE p.ncpus) mask = true ∧
      (pinning_observer.on_scheduler_entry cfg env p).requests
        = [target_mask env p.ncpus mapped_idx] ∧
      (∀ i : Int, CPU_ISSET_S i (CPU_ALLOC_SIZE p.ncpus) (target_mask env p.ncpus mapped_idx) = true
        ↔ i = mapped_idx) := by
  have hpos : 0 < CPU_COUNT_S (CPU_ALLOC_SIZE p.ncpus) mask := by omega
  have hr0 := Int.tmod_nonneg (CPU_COUNT_S (CPU_ALLOC_SIZE p.ncpus) mask) ht
  have hr1 := Int.tmod_lt_of_pos (logical_index cfg env p) hpos
  obtain ⟨hc0, hc1⟩ := stripe_range _ _ hcount hstep hov _ hr0 hr1
  obtain ⟨k, hk⟩ := Int.eq_ofNat_of_zero_le hc0
  rw [hk, CPU_COUNT_S_eq] at hc1
  have hklt : k < (set_bits (CPU_ALLOC_SIZE p.ncpus) mask).length := by exact_mod_cast hc1
  have hj := List.getElem?_eq_getElem hklt
  obtain ⟨hjlt, hjset⟩ := set_bits_mem _ mask _ (List.getElem?_mem hj)
  have hscan := scan_eq_of_set_bits _ mask k _ hj
  rw [← hk] at hscan
  generalize (set_bits (CPU_ALLOC_SIZE p.ncpus) mask)[k] = j at hjlt hjset hscan
  have hmi : mapped_index (CPU_ALLOC_SIZE p.ncpus) mask p.pinning_step (logical_index cfg env p)
      = some (j : Int) := by
    simp only [mapped_index]; exact hscan
  have hne : ¬ (CPU_COUNT_S (CPU_ALLOC_SIZE p.ncpus) mask = 0) := by omega
  refine ⟨(j : Int), hmi, hjset, ?_, target_mask_single_bit env p.ncpus j hjlt⟩
  simp only [pinning_observer.on_scheduler_entry, hmask, hne, if_false, hmi]
  split <;> rfl

/-- Witness of C10 as amended: the mask {2,5,7}, step 2 and thread index 1. -/
theorem pinned_core_is_permitted_witness :
    ∃ mapped_idx : Int,
      mapped_index 8 [false, false, true, false, false, true, false, true] 2 1 = some mapped_idx ∧
      CPU_ISSET_S mapped_idx 8 [false, false, true, false, false, true, false, true] = true ∧
      (pinning_observer.on_scheduler_entry default_config (sample_env [])
        ⟨some [false, false, true, false, false, true, false, true], 16, 2, 1⟩).requests
        = [target_mask (sample_env []) 16 mapped_idx] ∧
      (∀ i : Int, CPU_ISSET_S i 8 (target_mask (sample_env []) 16 mapped_idx) = true
        ↔ i = mapped_idx) :=
  pinned_core_is_permitted default_config (sample_env [])
    ⟨some [false, false, true, false, false, true, false, true], 16, 2, 1⟩
    [false, false, true, false, false, true, false, true] rfl (by decide) (by decide) (by decide)
    (by decide)

/-- Counterexample to C10 as stated: with the captured mask {0,1,2}, the
pinning step 2147483647 and the logical thread index 2, the second
`cpu_idx += pinning_step` overflows, the scan is skipped, `mapped_idx` is -1,
which is no set bit of the mask, and the target mask of the request is empty. -/
theorem pinned_core_overflow_counterexample :
    (1 : Int) ≤ CPU_COUNT_S 8 [true, true, true] ∧
    stripe 3 2147483647 2 = -2147483648 ∧
    mapped_index 8 [true, true, true] 2147483647 2 = some (-1) ∧
    CPU_ISSET_S (-1) 8 [true, true, true] = false ∧
    (pinning_observer.on_scheduler_entry default_config (sample_env [])
      ⟨some [true, true, true], 16, 2147483647, 2⟩).requests = [List.replicate 64 false] := by
  decide

/-- C3, as amended. With a captured mask that has no set bit,
`on_scheduler_entry` does not treat pinning as disabled: it goes on to
`thr_idx %= num_cpus` with `num_cpus == 0`; it makes no affinity-set
request. -/
theorem empty_mask_divides_by_zero (cfg : PinConfig) (env : Env) (p : pinning_observer)
    (mask : cpu_set_t) (hmask : p.mask = some mask)
    (hzero : CPU_COUNT_S (CPU_ALLOC_SIZE p.ncpus) mask = 0) :
    (pinning_observer.on_scheduler_entry cfg env p).outcome = Outcome.division_by_zero ∧
    (pinning_observer.on_scheduler_entry cfg env p).requests = [] := by
  simp [pinning_observer.on_scheduler_entry, hmask, hzero]

/-- Witness of C3 as amended: the observer built over an empty affinity mask. -/
theorem empty_mask_divides_by_zero_witness :
    (pinning_observer.on_scheduler_entry default_config (sample_env [])
      ⟨some (List.replicate 64 false), 16, 1, 0⟩).outcome = Outcome.division_by_zero ∧
    (pinning_observer.on_scheduler_entry default_config (sample_env [])
      ⟨some (List.replicate 64 false), 16, 1, 0⟩).requests = [] :=
  empty_mask_divides_by_zero default_config (sample_env [])
    ⟨some (List.replicate 64 false), 16, 1, 0⟩ (List.replicate 64 false) rfl (by decide)

/-- Counterexample to C3 as stated: an operating system that reports an empty
affinity mask yields an observer with a captured mask of zero set bits, and
its `on_scheduler_entry` evaluates `thr_idx %= num_cpus` with
`num_cpus == 0` instead of returning as when pinning is disabled. -/
theorem empty_mask_counterexample :
    pinning_observer.ctor (sample_env []) 1
      = some (⟨some (List.replicate 64 false), 16, 1, 0⟩, []) ∧
    CPU_COUNT_S (CPU_ALLOC_SIZE 16) (List.replicate 64 false) = 0 ∧
    pinning_observer.on_scheduler_entry default_config (sample_env [])
      ⟨some (List.replicate 64 false), 16, 1, 0⟩
      = ⟨⟨some (List.replicate 64 false), 16, 1, 1⟩, [], Outcome.division_by_zero⟩ := by
  decide


/-! ### The constructor of `pinning_observer` -/

theorem capture_loop_spec (env : Env) (fuel : Nat) :
    ∀ ncpus : Int, 1 ≤ ncpus → 16384 ≤ ncpus * 2 ^ fuel →
    ∃ mask n, capture_loop env (fuel + 1) ncpus none = some (mask, n) ∧
      (mask = none ∨ ∃ bits, env.alloc_ok n = true ∧
        env.sched_getaffinity n (CPU_ALLOC_SIZE n) = .ok bits ∧
        mask = some (getaffinity_write (CPU_ALLOC_SIZE n) bits
          (CPU_ZERO_S (CPU_ALLOC_SIZE n) (CPU_ALLOC_mem env n)))) := by
  induction fuel with
  | zero =>
    intro ncpus _ h2
    have hge : ¬ (ncpus < 16 * 1024) := by omega
    exact ⟨none, ncpus, by simp only [capture_loop, hge, if_false], Or.inl rfl⟩
  | succ f ih =>
    intro ncpus h1 h2
    rw [capture_loop]
    by_cases hlt : ncpus < 16 * 1024
    · simp only [hlt, if_true]
      cases halloc : env.alloc_ok ncpus with
      | false => exact ⟨none, ncpus, by simp [CPU_ALLOC, halloc], Or.inl rfl⟩
      | true =>
        simp only [CPU_ALLOC, halloc, if_true]
        cases hget : env.sched_getaffinity ncpus (CPU_ALLOC_SIZE ncpus) with
        | ok bits => exact ⟨_, ncpus, rfl, Or.inr ⟨bits, halloc, hget, rfl⟩⟩
        | error errno =>
          by_cases he : errno ≠ EINVAL
          · exact ⟨none, ncpus, by simp [he], Or.inl rfl⟩
          · have e : int32 (2 * ncpus) = 2 * ncpus := int32_eq_self (by omega) (by omega)
            simp only [he, if_false, e]
            exact ih (2 * ncpus) (by omega) (by rw [pow_succ] at h2; linarith)
    · exact ⟨none, ncpus, by simp only [hlt, if_false], Or.inl rfl⟩

theorem entry_calls_null (cfg : PinConfig) (envs : List Env) (p : pinning_observer)
    (h : p.mask = none) : entry_calls cfg envs p = ⟨p, [], Outcome.returned⟩ := by
  induction envs with
  | nil => rfl
  | cons env rest ih => simp [entry_calls, pinning_observer.on_scheduler_entry, h, ih]

/-- C4. Capture failure degrades to a no-op: the constructor of
`pinning_observer` always returns; its `mask` is non-null only when the last
allocation and the last `sched_getaffinity` call succeeded; and when `mask` is
null, the warning is printed once and every later run of `on_scheduler_entry`
calls returns without any affinity-set request and without stopping the
process, the observer staying as it was, `thread_index` included. -/
theorem capture_failure_is_noop (env : Env) (pinning_step : Int) (cfg : PinConfig)
    (envs : List Env) :
    ∃ p out, pinning_observer.ctor env pinning_step = some (p, out) ∧
      (p.mask = none ∨ ∃ bits, env.alloc_ok p.ncpus = true ∧
        env.sched_getaffinity p.ncpus (CPU_ALLOC_SIZE p.ncpus) = .ok bits ∧
        p.mask = some (getaffinity_write (CPU_ALLOC_SIZE p.ncpus) bits
          (CPU_ZERO_S (CPU_ALLOC_SIZE p.ncpus) (CPU_ALLOC_mem env p.ncpus)))) ∧
      (p.mask = none →
        out = [capture_warning] ∧ entry_calls cfg envs p = ⟨p, [], Outcome.returned⟩) := by
  obtain ⟨mask, n, hloop, hmask⟩ :=
    capture_loop_spec env 15 (sizeof_cpu_set_t / CHAR_BIT) (by decide) (by decide)
  refine ⟨⟨mask, n, pinning_step, 0⟩, if mask.isNone then [capture_warning] else [], ?_, hmask, ?_⟩
  · simp only [pinning_observer.ctor, capture_fuel, hloop]
  · intro hnull
    simp only at hnull
    subst hnull
    exact ⟨rfl, entry_calls_null cfg envs _ rfl⟩

/-- Witness of C4: `sched_getaffinity` fails with `EINVAL` at every size; the
observer has a null mask and three later entry calls do nothing. -/
theorem capture_failure_is_noop_witness :
    pinning_observer.ctor einval_env 2 = some (⟨none, 16384, 2, 0⟩, [capture_warning]) ∧
    entry_calls default_config [einval_env, einval_env, einval_env] ⟨none, 16384, 2, 0⟩
      = ⟨⟨none, 16384, 2, 0⟩, [], Outcome.returned⟩ := by
  obtain ⟨p, out, hctor, -, hnoop⟩ :=
    capture_failure_is_noop einval_env 2 default_config [einval_env, einval_env, einval_env]
  have hval : pinning_observer.ctor einval_env 2
      = some (⟨none, 16384, 2, 0⟩, [capture_warning]) := by decide
  rw [hval] at hctor
  have hp : p = ⟨none, 16384, 2, 0⟩ := by
    have := Option.some.inj hctor
    exact (congrArg Prod.fst this).symm
  subst hp
  exact ⟨hval, (hnoop rfl).2⟩

/-! ### `concurrency_tracker` -/

theorem count_entries_cons_entry (t : Nat) (es : List SchedEvent) :
    count_entries (.entry t :: es) = count_entries es + 1 := by simp [count_entries]

theorem count_entries_cons_exit (t : Nat) (es : List SchedEvent) :
    count_entries (.exit t :: es) = count_entries es := by simp [count_entries]

theorem count_exits_cons_entry (t : Nat) (es : List SchedEvent) :
    count_exits (.entry t :: es) = count_exits es := by simp [count_exits]

theorem count_exits_cons_exit (t : Nat) (es : List SchedEvent) :
    count_exits (.exit t :: es) = count_exits es + 1 := by simp [count_exits]

theorem peak_inside_ge (trace : List SchedEvent) (pending : List Nat) :
    pending.dedup.length ≤ peak_inside trace pending := by
  cases trace with
  | nil => exact le_refl _
  | cons e es => cases e <;> exact le_max_left _ _

theorem tracker_run_spec (trace : List SchedEvent) :
    ∀ (pending : List Nat) (c : concurrency_tracker),
      pending.Nodup → exits_matched trace pending = true → entries_fresh trace pending = true →
      (peak_inside trace pending : Int) ≤ INT_MAX →
      c.num_threads = (pending.length : Int) →
      (unmatched_entries trace pending).Nodup ∧
      (concurrency_tracker.run trace c).num_threads
        = ((unmatched_entries trace pending).length : Int) ∧
      (concurrency_tracker.run trace c).num_threads
        = c.num_threads + (count_entries trace : Int) - (count_exits trace : Int) := by
  induction trace with
  | nil =>
    intro pending c hnd _ _ _ hc
    exact ⟨hnd, by simp [concurrency_tracker.run, unmatched_entries, hc],
      by simp [concurrency_tracker.run, count_entries, count_exits]⟩
  | cons e es ih =>
    intro pending c hnd hm hf hp hc
    cases e with
    | entry t =>
      simp only [exits_matched] at hm
      simp only [entries_fresh, Bool.and_eq_true, decide_eq_true_eq] at hf
      have hnd2 : (t :: pending).Nodup := List.nodup_cons.mpr ⟨hf.1, hnd⟩
      have hp2 : (peak_inside es (t :: pending) : Int) ≤ INT_MAX := by
        have : peak_inside es (t :: pending) ≤ peak_inside (.entry t :: es) pending :=
          le_max_right _ _
        have h3 : (peak_inside es (t :: pending) : Int)
            ≤ (peak_inside (.entry t :: es) pending : Int) := by exact_mod_cast this
        exact le_trans h3 hp
      have hlen : ((t :: pending).length : Int) ≤ INT_MAX := by
        have h3 := peak_inside_ge es (t :: pending)
        rw [hnd2.dedup] at h3
        have h4 : ((t :: pending).length : Int) ≤ (peak_inside es (t :: pending) : Int) := by
          exact_mod_cast h3
        exact le_trans h4 hp2
      have hstep : c.on_scheduler_entry.num_threads = ((t :: pending).length : Int) := by
        simp only [concurrency_tracker.on_scheduler_entry, hc, List.length_cons] at hlen ⊢
        unfold INT_MAX at hlen
        push_cast at hlen ⊢
        exact int32_eq_self (by omega) (by omega)
      obtain ⟨h0, h1, h2⟩ := ih (t :: pending) c.on_scheduler_entry hnd2 hm hf.2 hp2 hstep
      refine ⟨h0, h1, ?_⟩
      rw [count_entries_cons_entry, count_exits_cons_entry]
      show (concurrency_tracker.run es c.on_scheduler_entry).num_threads = _
      rw [h2, hstep, hc, List.length_cons]
      push_cast
      ring
    | exit t =>
      simp only [exits_matched, Bool.and_eq_true, decide_eq_true_eq] at hm
      simp only [entries_fresh] at hf
      have hnd2 : (pending.erase t).Nodup := hnd.erase t
      have hp2 : (peak_inside es (pending.erase t) : Int) ≤ INT_MAX := by
        have : peak_inside es (pending.erase t) ≤ peak_inside (.exit t :: es) pending :=
          le_max_right _ _
        have h3 : (peak_inside es (pending.erase t) : Int)
            ≤ (peak_inside (.exit t :: es) pending : Int) := by exact_mod_cast this
        exact le_trans h3 hp
      have hlen : (pending.erase t).length = pending.length - 1 := List.length_erase_of_mem hm.1
      have hpos : 0 < pending.length := List.length_pos_of_mem hm.1
      have hbound : (pending.length : Int) ≤ INT_MAX := by
        have h3 : pending.dedup.length ≤ peak_inside (.exit t :: es) pending := le_max_left _ _
        rw [hnd.dedup] at h3
        have h4 : (pending.length : Int) ≤ (peak_inside (.exit t :: es) pending : Int) := by
          exact_mod_cast h3
        exact le_trans h4 hp
      have hstep : c.on_scheduler_exit.num_threads = ((pending.erase t).length : Int) := by
        simp only [concurrency_tracker.on_scheduler_exit, hc, hlen]
        unfold INT_MAX at hbound
        rw [int32_eq_self (by omega) (by omega)]
        omega
      obtain ⟨h0, h1, h2⟩ := ih (pending.erase t) c.on_scheduler_exit hnd2 hm.2 hf hp2 hstep
      refine ⟨h0, h1, ?_⟩
      rw [count_entries_cons_exit, count_exits_cons_exit]
      show (concurrency_tracker.run es c.on_scheduler_exit).num_threads = _
      rw [h2, hstep, hc, hlen]
      push_cast
      omega

/-- C9, as amended. Concurrency counter: starting from a freshly constructed
tracker, after every finite sequence of entry and exit notifications in which
each exit is preceded by its own unmatched entry, no thread enters again while
it is inside and at most `INT_MAX` threads are inside at a time,
`get_concurrency` returns the number of entries minus the number of exits,
which is not negative and not more than the number of threads between their
entry and their exit notification. -/
theorem concurrency_counter (trace : List SchedEvent) (hm : exits_matched trace [] = true)
    (hf : entries_fresh trace [] = true) (hp : (peak_inside trace [] : Int) ≤ INT_MAX) :
    (concurrency_tracker.run trace concurrency_tracker.ctor).get_concurrency
      = (count_entries trace : Int) - (count_exits trace : Int) ∧
    0 ≤ (concurrency_tracker.run trace concurrency_tracker.ctor).get_concurrency ∧
    (concurrency_tracker.run trace concurrency_tracker.ctor).get_concurrency
      ≤ ((threads_inside trace).length : Int) := by
  obtain ⟨h0, h1, h2⟩ :=
    tracker_run_spec trace [] concurrency_tracker.ctor List.nodup_nil hm hf hp rfl
  simp only [concurrency_tracker.get_concurrency, threads_inside, h0.dedup]
  refine ⟨by simpa [concurrency_tracker.ctor] using h2, ?_, ?_⟩
  · rw [h1]; exact Int.natCast_nonneg _
  · rw [h1]

/-- Witness of C9 as amended: threads 1 and 2 enter, thread 1 leaves, thread 3
enters; the counter is 2 and the threads inside are 3 and 2. -/
theorem concurrency_counter_witness :
    (exits_matched [.entry 1, .entry 2, .exit 1, .entry 3] [] = true ∧
      entries_fresh [.entry 1, .entry 2, .exit 1, .entry 3] [] = true ∧
      (peak_inside [.entry 1, .entry 2, .exit 1, .entry 3] [] : Int) ≤ INT_MAX) ∧
    (concurrency_tracker.run [.entry 1, .entry 2, .exit 1, .entry 3]
      concurrency_tracker.ctor).get_concurrency = 2 ∧
    threads_inside [.entry 1, .entry 2, .exit 1, .entry 3] = [3, 2] := by
  have h := concurrency_counter [.entry 1, .entry 2, .exit 1, .entry 3]
    (by decide) (by decide) (by decide)
  exact ⟨by decide, by simpa [count_entries, count_exits] using h.1, by decide⟩

theorem tracker_run_append (a b : List SchedEvent) :
    ∀ c : concurrency_tracker,
      concurrency_tracker.run (a ++ b) c
        = concurrency_tracker.run b (concurrency_tracker.run a c) := by
  induction a with
  | nil => intro c; rfl
  | cons e es ih => intro c; cases e <;> simp [concurrency_tracker.run, ih]

theorem exits_matched_entries (l : List Nat) :
    ∀ pending : List Nat, exits_matched (l.map SchedEvent.entry) pending = true := by
  induction l with
  | nil => intro pending; rfl
  | cons t ts ih => intro pending; simp [exits_matched, ih]

theorem entries_fresh_entries (l : List Nat) :
    ∀ pending : List Nat, l.Nodup → (∀ x ∈ l, x ∉ pending) →
      entries_fresh (l.map SchedEvent.entry) pending = true := by
  induction l with
  | nil => intro pending _ _; rfl
  | cons t ts ih =>
    intro pending hnd hout
    obtain ⟨ht, hts⟩ := List.nodup_cons.mp hnd
    simp only [List.map_cons, entries_fresh, Bool.and_eq_true, decide_eq_true_eq]
    refine ⟨hout t (List.mem_cons_self t ts), ih (t :: pending) hts ?_⟩
    intro x hx hmem
    rcases List.mem_cons.mp hmem with h | h
    · exact ht (h ▸ hx)
    · exact hout x (List.mem_cons_of_mem t hx) h

theorem tracker_run_entries (l : List Nat) :
    ∀ c : concurrency_tracker, 0 ≤ c.num_threads →
      c.num_threads + (l.length : Int) ≤ INT_MAX →
      (concurrency_tracker.run (l.map SchedEvent.entry) c).num_threads
        = c.num_threads + (l.length : Int) := by
  induction l with
  | nil => intro c _ _; simp [concurrency_tracker.run]
  | cons t ts ih =>
    intro c h0 hmax
    simp only [List.length_cons] at hmax
    push_cast at hmax
    unfold INT_MAX at hmax
    have hstep : c.on_scheduler_entry.num_threads = c.num_threads + 1 := by
      simp only [concurrency_tracker.on_scheduler_entry]
      exact int32_eq_self (by omega) (by omega)
    have := ih c.on_scheduler_entry (by omega) (by unfold INT_MAX; omega)
    simp only [List.map_cons, concurrency_tracker.run, this, hstep, List.length_cons]
    push_cast
    ring

theorem many_entries_succ (n : Nat) :
    many_entries (n + 1) = many_entries n ++ [SchedEvent.entry n] := by
  unfold many_entries
  rw [List.range_succ, List.map_append, List.map_singleton]

theorem exits_matched_many_entries (n : Nat) : exits_matched (many_entries n) [] = true :=
  exits_matched_entries (List.range n) []

theorem entries_fresh_many_entries (n : Nat) : entries_fresh (many_entries n) [] = true :=
  entries_fresh_entries (List.range n) [] (List.nodup_range n) (fun _ _ h => List.not_mem_nil _ h)

theorem tracker_many_entries (n : Nat) (h : (n : Int) ≤ INT_MAX) :
    (concurrency_tracker.run (many_entries (n + 1)) concurrency_tracker.ctor).get_concurrency
      = int32 ((n : Int) + 1) := by
  have hrun := tracker_run_entries (List.range n) concurrency_tracker.ctor (le_refl _)
    (by rw [List.length_range]; simpa [concurrency_tracker.ctor] using h)
  rw [List.length_range] at hrun
  have hrun2 : (concurrency_tracker.run (many_entries n) concurrency_tracker.ctor).num_threads
      = (n : Int) := by
    unfold many_entries
    rw [hrun]
    simp [concurrency_tracker.ctor]
  rw [many_entries_succ, tracker_run_append]
  generalize concurrency_tracker.run (many_entries n) concurrency_tracker.ctor = c at hrun2
  simp only [concurrency_tracker.run, concurrency_tracker.on_scheduler_entry,
    concurrency_tracker.get_concurrency, hrun2]

/-- Counterexample to C9 as stated. First, the trace in which thread 1 enters
twice meets the condition on exits, and `get_concurrency` returns 2 with one
thread inside. Second, after the entries of 2147483648 distinct threads, which
meet the condition on exits and where no thread enters twice, the counter has
wrapped and `get_concurrency` returns -2147483648. -/
theorem concurrency_counter_counterexample :
    (exits_matched [.entry 1, .entry 1] [] = true ∧
      (concurrency_tracker.run [.entry 1, .entry 1] concurrency_tracker.ctor).get_concurrency = 2 ∧
      (threads_inside [.entry 1, .entry 1]).length = 1) ∧
    (exits_matched (many_entries (2147483647 + 1)) [] = true ∧
      entries_fresh (many_entries (2147483647 + 1)) [] = true ∧
      (concurrency_tracker.run (many_entries (2147483647 + 1))
        concurrency_tracker.ctor).get_concurrency = int32 (((2147483647 : Nat) : Int) + 1) ∧
      int32 (((2147483647 : Nat) : Int) + 1) = -2147483648) :=
  ⟨by decide,
   exits_matched_many_entries (2147483647 + 1),
   entries_fresh_many_entries (2147483647 + 1),
   tracker_many_entries 2147483647 (by decide),
   by decide⟩

/-! ### `ThreadSafe` -/

theorem ThreadSafe_ctor_some (cfg : GuardConfig) (a : Nat) (heap : Heap)
    (hfree : (heap a).held = false) :
    ThreadSafe.ctor cfg (some a) heap
      = .constructed ⟨some a⟩ (Function.update heap a
          { heap a with held := true, lock_calls := (heap a).lock_calls + 1 }) := by
  unfold ThreadSafe.ctor
  cases cfg.scoped_lock_member <;> cases cfg.NDEBUG <;> simp [MUTEX_T.lock, hfree]

/-- C5. Scoped release: for every build, every non-null pointer to a free
mutex and every scope body, the scope is left with the value or the error of
the body; the body runs with the mutex held, after one `lock`; after the scope
the mutex is free, `lock` and `unlock` were each called once, it can be
acquired again, and no other mutex was touched. -/
theorem scoped_release {ε α : Type} (cfg : GuardConfig) (a : Nat) (heap : Heap)
    (body : Heap → Except ε α) (hfree : (heap a).held = false) :
    ∃ heap1 heap2 : Heap,
      ThreadSafe.scope cfg (some a) heap body = .left (body heap1) heap2 ∧
      (heap1 a).held = true ∧
      (heap1 a).lock_calls = (heap a).lock_calls + 1 ∧
      (heap1 a).unlock_calls = (heap a).unlock_calls ∧
      (heap2 a).held = false ∧
      (heap2 a).lock_calls = (heap a).lock_calls + 1 ∧
      (heap2 a).unlock_calls = (heap a).unlock_calls + 1 ∧
      ((heap2 a).lock).isSome = true ∧
      (∀ b, b ≠ a → heap1 b = heap b ∧ heap2 b = heap b) := by
  refine ⟨Function.update heap a { heap a with held := true, lock_calls := (heap a).lock_calls + 1 },
    Function.update (Function.update heap a
      { heap a with held := true, lock_calls := (heap a).lock_calls + 1 }) a
      (MUTEX_T.unlock { heap a with held := true, lock_calls := (heap a).lock_calls + 1 }),
    ?_, ?_, ?_, ?_, ?_, ?_, ?_, ?_, ?_⟩
  · simp only [ThreadSafe.scope, ThreadSafe_ctor_some cfg a heap hfree, ThreadSafe.dtor,
      Function.update_same]
  · simp
  · simp
  · simp
  · simp [MUTEX_T.unlock]
  · simp [MUTEX_T.unlock]
  · simp [MUTEX_T.unlock]
  · simp [MUTEX_T.unlock, MUTEX_T.lock]
  · intro b hb
    simp [Function.update_noteq hb]

/-- Witness of C5: the body ends with an error, and the mutex at address 7 is
free afterwards, locked once and unlocked once. -/
theorem scoped_release_witness :
    (fresh_heap 7).held = false ∧
    ∃ heap2 : Heap,
      ThreadSafe.scope debug_config (some 7) fresh_heap sample_body = .left (.error 1) heap2 ∧
      heap2 7 = ⟨false, 1, 1⟩ := by
  obtain ⟨heap1, heap2, hs, hheld, -, -, h1, h2, h3, -, -⟩ :=
    scoped_release debug_config 7 fresh_heap sample_body rfl
  refine ⟨rfl, heap2, ?_, ?_⟩
  · rw [hs]; simp [sample_body, hheld]
  · have e : heap2 7 = ⟨(heap2 7).held, (heap2 7).lock_calls, (heap2 7).unlock_calls⟩ := rfl
    rw [e, h1, h2, h3]; rfl

/-- C6, as amended. Null rejection: in the builds that keep the pointer
member and leave `assert` enabled (`NDEBUG` not defined), constructing a
`ThreadSafe` with a null mutex pointer stops at the failed `assert`: the
constructor does not go on to `lock` and no guard is built, so that no scope
body runs. With `NDEBUG` defined the `assert` is compiled out and the
constructor goes on to call `lock` through the null pointer. -/
theorem null_mutex_rejected {ε α : Type} (cfg : GuardConfig) (heap : Heap)
    (body : Heap → Except ε α) (hmember : cfg.scoped_lock_member = false) :
    (cfg.NDEBUG = false →
      ThreadSafe.ctor cfg none heap = CtorResult.assertion_failed ∧
      ThreadSafe.scope cfg none heap body = ScopeResult.assertion_failed) ∧
    (cfg.NDEBUG = true →
      ThreadSafe.ctor cfg none heap = CtorResult.null_dereference) := by
  constructor
  · intro hassert
    have h : ThreadSafe.ctor cfg none heap = CtorResult.assertion_failed := by
      simp [ThreadSafe.ctor, hassert, hmember]
    exact ⟨h, by simp only [ThreadSafe.scope, h]⟩
  · intro hrelease
    simp [ThreadSafe.ctor, hrelease, hmember]

/-- Witness of C6 as amended: a debug build. -/
theorem null_mutex_rejected_witness :
    debug_config.scoped_lock_member = false ∧ debug_config.NDEBUG = false ∧
    ThreadSafe.ctor debug_config none fresh_heap = CtorResult.assertion_failed ∧
    ThreadSafe.scope debug_config none fresh_heap sample_body = ScopeResult.assertion_failed :=
  ⟨rfl, rfl, (null_mutex_rejected debug_config fresh_heap sample_body rfl).1 rfl⟩

/-- Counterexample to C6 as stated: in a release build (`NDEBUG` defined) the
`assert` is compiled out, and the constructor called with a null pointer goes
on to `ptr_mutex_->lock()`, a call through the null pointer, instead of
failing the `assert`. -/
theorem null_mutex_release_counterexample :
    ThreadSafe.ctor release_config none fresh_heap = CtorResult.null_dereference ∧
    ThreadSafe.ctor release_config none fresh_heap ≠ CtorResult.assertion_failed := by
  have h : ThreadSafe.ctor release_config none fresh_heap = CtorResult.null_dereference := rfl
  refine ⟨h, ?_⟩
  rw [h]
  intro hc
  cases hc

end Threading
